import Mathlib

/-!
Verification development for the Samsung Health monthly-report reconciliation
core (steps.py, hrv.py).  The Python functions are shallowly embedded as
executable Lean definitions; machine floats are modelled as rationals and
pandas timestamps as whole days since the Unix epoch.
-/

namespace SamsungHealth

/-! ## Basic string utilities (Python string semantics on lists of chars) -/

/-- Python whitespace test used by str.strip. -/
def isPySpace (c : Char) : Bool := c = ' ' || c = '\t' || c = '\n' || c = '\r'

/-- Python str.strip on a char list: drop whitespace from both ends. -/
def stripChars (cs : List Char) : List Char :=
  ((cs.dropWhile isPySpace).reverse.dropWhile isPySpace).reverse

/-- Python str.strip. -/
def pyStrip (s : String) : String := ⟨stripChars s.toList⟩

/-- Python substring containment (the in operator on str): pat is a prefix of
some suffix of hay. -/
def listContainsSub (hay pat : List Char) : Bool :=
  if pat.isPrefixOf hay then true
  else
    match hay with
    | [] => false
    | _ :: t => listContainsSub t pat

/-- Python s.endswith(t). -/
def strEndsWith (s suffx : String) : Bool := suffx.toList.isSuffixOf s.toList

/-- Lower-case a char list (str.lower). -/
def lowerChars (cs : List Char) : List Char := cs.map Char.toLower

/-- " ".join of lower-cased column names, as used by smart_load. -/
def joinedLower (cols : List String) : List Char :=
  match cols with
  | [] => []
  | c :: rest => rest.foldl (fun acc c2 => acc ++ ' ' :: lowerChars c2.toList) (lowerChars c.toList)

/-- Code-point comparison of chars (Python string ordering). -/
def charLt (a b : Char) : Bool := decide (a.toNat < b.toNat)

/-- Lexicographic strict comparison of char lists (Python string <). -/
def lexLt : List Char → List Char → Bool
  | [], [] => false
  | [], _ :: _ => true
  | _ :: _, [] => false
  | a :: as, b :: bs => if a = b then lexLt as bs else charLt a b

/-- Python string strict comparison. -/
def strLt (a b : String) : Bool := lexLt a.toList b.toList

/-! ## Calendar dates.  Timestamps are modelled, after day truncation, as whole
days since 1970-01-01 (Int); civil (y, m, d) views are computed with the
standard proleptic-Gregorian algorithms. -/

/-- A civil calendar date (year, month, day). -/
structure Date where
  year : Int
  month : Int
  day : Int
deriving DecidableEq, Repr

/-- A pandas timestamp truncated to day granularity: days since 1970-01-01. -/
abbrev Day := Int

/-- Civil date of a day count since the Unix epoch (proleptic Gregorian). -/
def civilFromDays (z0 : Day) : Date :=
  let z := z0 + 719468
  let era := z.ediv 146097
  let doe := z.emod 146097
  let yoe := (doe - doe.ediv 1460 + doe.ediv 36524 - doe.ediv 146096).ediv 365
  let y := yoe + era * 400
  let doy := doe - (365 * yoe + yoe.ediv 4 - yoe.ediv 100)
  let mp := (5 * doy + 2).ediv 153
  let d := doy - (153 * mp + 2).ediv 5 + 1
  let m := mp + (if mp < 10 then 3 else -9)
  ⟨y + (if m ≤ 2 then 1 else 0), m, d⟩

/-- Day count since the Unix epoch of a civil date (proleptic Gregorian). -/
def daysFromCivil (y0 m d : Int) : Day :=
  let y := y0 - (if m ≤ 2 then 1 else 0)
  let era := y.ediv 400
  let yoe := y - era * 400
  let mp := m + (if 2 < m then -3 else 9)
  let doy := (153 * mp + 2).ediv 5 + d - 1
  let doe := yoe * 365 + yoe.ediv 4 - yoe.ediv 100 + doy
  era * 146097 + doe - 719468

/-- Year of a day-granular timestamp (pandas .dt.year). -/
def yearOf (t : Day) : Int := (civilFromDays t).year

/-- Calendar month key of a timestamp (pandas .dt.to_period("M")). -/
def monthOf (t : Day) : Int × Int := ((civilFromDays t).year, (civilFromDays t).month)

/-- Gregorian leap-year test. -/
def isLeap (y : Int) : Bool := y.emod 4 = 0 && (y.emod 100 ≠ 0 || y.emod 400 = 0)

/-- Number of days in a month. -/
def daysInMonth (y m : Int) : Int :=
  if m = 2 then (if isLeap y then 29 else 28)
  else if m = 4 || m = 6 || m = 9 || m = 11 then 30
  else 31

/-- pandas nanosecond-timestamp bound, expressed in whole milliseconds:
to_datetime(unit="ms", errors="coerce") yields NaT outside int64 nanoseconds. -/
def msBound : ℚ := 9223372036854

/-- pd.to_datetime(x, unit="ms", errors="coerce") followed by day truncation:
epoch-milliseconds to a day count, NaT (none) when outside the ns-range.
q.num.fdiv (q.den * 86400000) is the floor of q / 86400000, written so the
kernel can evaluate it. -/
def msToDayOpt (q : ℚ) : Option Day :=
  if -msBound ≤ q ∧ q ≤ msBound then some (q.num.fdiv (q.den * 86400000)) else none

/-! ## Numeric and free-text parsing oracles.

pd.to_numeric / float() over decimal literals, and the free-text date parse
restricted to ISO dates (YYYY-MM-DD with an optional time suffix), the format
carried by this export; other pandas-accepted free-text forms are outside the
fragment exercised here. -/

/-- Value of a digit list (most significant first); no emptiness check. -/
def natOfDigits (cs : List Char) : Nat :=
  cs.foldl (fun n c => 10 * n + (c.toNat - 48)) 0

/-- Decimal-literal parse: pd.to_numeric(errors="coerce") / Python float()
on plain (optionally signed, optionally fractional) decimal strings;
scientific notation and inf/nan literals are not modelled. -/
def parseNum (s : String) : Option ℚ :=
  let cs := stripChars s.toList
  let neg := cs.head? = some '-'
  let cs := match cs with
    | '-' :: r => r
    | '+' :: r => r
    | _ => cs
  let ip := cs.takeWhile (fun c => c ≠ '.')
  match cs.dropWhile (fun c => c ≠ '.') with
  | [] =>
    if ip ≠ [] ∧ ip.all Char.isDigit then
      some (mkRat (if neg then -(natOfDigits ip : Int) else (natOfDigits ip : Int)) 1)
    else none
  | '.' :: fp =>
    -- value ±ip.fp as an exact rational, built through mkRat
    if (ip ≠ [] ∨ fp ≠ []) ∧ ip.all Char.isDigit ∧ fp.all Char.isDigit then
      let n : Int := natOfDigits ip * 10 ^ fp.length + natOfDigits fp
      some (mkRat (if neg then -n else n) (10 ^ fp.length))
    else none
  | _ => none

/-- Integer-literal parse: Python int() on strings (sign plus digits only). -/
def parseIntStr (s : String) : Option Int :=
  let cs := stripChars s.toList
  let sgn : Int := if cs.head? = some '-' then -1 else 1
  let cs := match cs with
    | '-' :: r => r
    | '+' :: r => r
    | _ => cs
  if cs ≠ [] ∧ cs.all Char.isDigit then some (sgn * (natOfDigits cs : Int)) else none

/-- Free-text date parse (pd.to_datetime(errors="coerce") on the ISO strings
this export carries): YYYY-MM-DD, optionally followed by a space- or
T-separated time which day truncation discards. -/
def parseDateText (s : String) : Option Day :=
  match stripChars s.toList with
  | y1 :: y2 :: y3 :: y4 :: '-' :: m1 :: m2 :: '-' :: d1 :: d2 :: rest =>
    if ([y1, y2, y3, y4, m1, m2, d1, d2].all Char.isDigit
        ∧ (rest = [] ∨ rest.head? = some ' ' ∨ rest.head? = some 'T')) then
      let y : Int := natOfDigits [y1, y2, y3, y4]
      let m : Int := natOfDigits [m1, m2]
      let d : Int := natOfDigits [d1, d2]
      if 1 ≤ m ∧ m ≤ 12 ∧ 1 ≤ d ∧ d ≤ daysInMonth y m then
        some (daysFromCivil y m d)
      else none
    else none
  | _ => none

/-! ## Raw tabular fields (cells of a pandas DataFrame read with dtype=str,
possibly coerced to numeric by pd.to_numeric). -/

/-- A cell value: NaN, a raw string, or an already-numeric value. -/
inductive Field where
  | na : Field
  | str (s : String) : Field
  | num (q : ℚ) : Field
deriving DecidableEq, Repr

/-- pd.to_numeric(x, errors="coerce") on one cell. -/
def toNum : Field → Option ℚ
  | Field.na => none
  | Field.str s => parseNum s
  | Field.num q => some q

/-- Free-text pd.to_datetime on one cell.  A numeric cell would be read as
epoch-nanoseconds, yielding a pre-2005 date at realistic magnitudes that the
year gate of clean_ts removes, so it is modelled as unresolvable. -/
def toTextDate : Field → Option Day
  | Field.na => none
  | Field.str s => parseDateText s
  | Field.num _ => none

/-- pd.to_numeric(series, errors="coerce") over a whole column. -/
def coerceNumField (f : Field) : Field :=
  match toNum f with
  | some q => Field.num q
  | none => Field.na

/-- The ≥ 2005 validity gate of clean_ts (ts.where(ts.dt.year >= 2005)). -/
def yearGate (t : Day) : Option Day :=
  if 2005 ≤ yearOf t then some t else none

/-- The two parse passes of steps.clean_ts, before the final year gate.  A
numeric epoch-milliseconds pass runs first and is kept when it resolves any
value; the free-text pass runs only when the numeric pass resolved none. -/
def clean_ts_pre (series : List Field) : List (Option Day) :=
  let num := series.map toNum
  let ts0 : List (Option Day) := series.map (fun _ => none)
  let ts1 :=
    if num.any Option.isSome then
      let candidate := num.map (fun o => o.bind msToDayOpt)
      if candidate.any Option.isSome then candidate else ts0
    else ts0
  if ts1.all Option.isNone then
    let parsed := series.map toTextDate
    if parsed.any Option.isSome then parsed else ts1
  else ts1

/-- steps.clean_ts: series-level timestamp normalization — the two parse
passes, then ts.where(ts.dt.year >= 2005, NaT) on every value. -/
def clean_ts (series : List Field) : List (Option Day) :=
  (clean_ts_pre series).map (fun o => o.bind yearGate)

/-- Modelled from the spec (§4.2): per-value normalization, "order of
attempts, first success wins" applied to each raw field value independently —
numeric epoch-ms first, free-text second, then the year ≥ 2005 gate.  Stated
for comparison with the series-level clean_ts of the source. -/
def normalizePerValueSpec (v : Field) : Option Day :=
  let d :=
    match (toNum v).bind msToDayOpt with
    | some d => some d
    | none => toTextDate v
  d.bind yearGate

/-! ## Generic list machinery shared by the pipelines: sorting by a key order
(modelling pandas sort_values through List.insertionSort; the source does not
pin the order of ties, pandas' default quicksort being unstable) and the two
drop_duplicates flavours. -/

/-- pandas drop_duplicates(subset=key, keep="last"): an element is dropped
when a later element shares its key. -/
def dropDupKeepLast (key : α → κ) [DecidableEq κ] : List α → List α
  | [] => []
  | a :: rest =>
    if rest.any (fun b => key b = key a) then dropDupKeepLast key rest
    else a :: dropDupKeepLast key rest

/-- Worker of dropDupKeepFirst: keep an element only when its key was not
seen earlier. -/
def keepFirstGo (key : α → κ) [DecidableEq κ] (seen : List κ) : List α → List α
  | [] => []
  | a :: rest =>
    if seen.contains (key a) then keepFirstGo key seen rest
    else a :: keepFirstGo key (key a :: seen) rest

/-- pandas drop_duplicates(subset=key, keep="first"): keep each first
occurrence, drop the later ones with the same key. -/
def dropDupKeepFirst (key : α → κ) [DecidableEq κ] (l : List α) : List α :=
  keepFirstGo key [] l

/-! ## Months and grouping -/

/-- A calendar month key (year, month), pandas Period("M"). -/
abbrev Month := Int × Int

/-- Chronological order on month keys (the sort pandas groupby applies). -/
def monthLeB (a b : Month) : Bool :=
  if a.1 = b.1 then decide (a.2 ≤ b.2) else decide (a.1 < b.1)

/-- monthLeB as a decidable relation for List.insertionSort. -/
def MonthLe (a b : Month) : Prop := monthLeB a b = true

instance : DecidableRel MonthLe :=
  fun a b => inferInstanceAs (Decidable (monthLeB a b = true))

/-- The distinct months of a list, in chronological order. -/
def sortedMonths (ms : List Month) : List Month := List.insertionSort MonthLe ms.dedup

/-- pandas groupby(month).sum() over (month, value) pairs. -/
def gbSum (pairs : List (Month × ℚ)) : List (Month × ℚ) :=
  (sortedMonths (pairs.map (·.1))).map
    (fun m => (m, ((pairs.filter (fun p => p.1 = m)).map (·.2)).sum))

/-- round(x, 1).  Python rounds half to even while Mathlib's round is half-up;
no reconciled figure in this development sits on an exact half. -/
def round1 (q : ℚ) : ℚ := (round (q * 10) : ℚ) / 10

/-! ## SchemaSniffer: smart_load header selection (steps.py) -/

/-- Hint test of smart_load: some hint is a substring of the space-joined
lower-cased column names. -/
def hasHint (expect : List String) (cols : List String) : Bool :=
  expect.any (fun e => listContainsSub (joinedLower cols) (lowerChars e.toList))

/-- smart_load's choice between the header-row-0 parse (columns cols0) and the
header-row-1 parse (columns cols1); true means the header-row-1 parse is
picked. -/
def smartLoadPick (expect : List String) (cols0 cols1 : List String) : Bool :=
  if expect.isEmpty then decide (cols0.length < cols1.length)
  else hasHint expect cols1 && (!hasHint expect cols0 || decide (cols0.length ≤ cols1.length))

/-! ## DataFrames and the three step pipelines (steps.py) -/

/-- A loaded DataFrame: column names and rows of cells. -/
structure DF where
  cols : List String
  rows : List (List Field)

/-- First column whose lower-cased name contains the given substring
(next(c for c in df.columns if sub in c.lower())). -/
def findColContaining (df : DF) (sub : String) : Option String :=
  df.cols.find? (fun c => listContainsSub (lowerChars c.toList) sub.toList)

/-- The cells of a named column (Field.na when the column is absent). -/
def getCol (df : DF) (c : String) : List Field :=
  match df.cols.findIdx? (· = c) with
  | some i => df.rows.map (fun r => r.getD i Field.na)
  | none => df.rows.map (fun _ => Field.na)

/-- Field ordering used when sorting day-summary rows by raw day_time: NaN
sorts last (pandas na_position default); mixed string/number columns raise in
pandas and are not modelled. -/
def fieldLtB : Field → Field → Bool
  | Field.na, _ => false
  | Field.str _, Field.na => true
  | Field.num _, Field.na => true
  | Field.str a, Field.str b => lexLt a.toList b.toList
  | Field.num a, Field.num b => decide (a < b)
  | Field.str _, Field.num _ => false
  | Field.num _, Field.str _ => false

/-- Row order of the day-summary dedup sort: day_time ascending, step value
descending (sort_values(["day_time", "step_val"], ascending=[True, False])). -/
def daySortLe (a b : Field × ℚ × Day) : Bool :=
  if a.1 = b.1 then decide (b.2.1 ≤ a.2.1) else fieldLtB a.1 b.1

/-- daySortLe as a decidable relation for List.insertionSort. -/
def DaySortLe (a b : Field × ℚ × Day) : Prop := daySortLe a b = true

instance : DecidableRel DaySortLe :=
  fun a b => inferInstanceAs (Decidable (daySortLe a b = true))

/-- steps.aggregate_day_summary: the day-summary pipeline, producing per month
the merged total and the 1-decimal average over distinct days. -/
def aggregate_day_summary (df : DF) : List (Month × ℚ × ℚ) :=
  if df.rows.isEmpty then []
  else
    match findColContaining df ("step_count") with
    | none => []
    | some step_col =>
      let stepVals := (getCol df step_col).map toNum
      let tsOpt : Option (List (Option Day)) :=
        if df.cols.contains ("day_time") then
          some (clean_ts ((getCol df ("day_time")).map coerceNumField))
        else
          match findColContaining df ("start_time") with
          | none => none
          | some fb => some (clean_ts (getCol df fb))
      match tsOpt with
      | none => []
      | some ts =>
        let rows : List (Field × ℚ × Day) :=
          (((getCol df ("day_time")).zip stepVals).zip ts).filterMap
            (fun p => match p.1.2, p.2 with
              | some sv, some t => some (p.1.1, sv, t)
              | _, _ => none)
        let rows :=
          if df.cols.contains ("day_time") then
            dropDupKeepFirst (fun r => r.1) (List.insertionSort DaySortLe rows)
          else rows
        (sortedMonths (rows.map (fun r => monthOf r.2.2))).map (fun m =>
          let grp := rows.filter (fun r => monthOf r.2.2 = m)
          let total := (grp.map (fun r => r.2.1)).sum
          let days := ((grp.map (fun r => r.2.2)).dedup).length
          (m, total, round1 (total / (days : ℚ))))

/-- steps.aggregate_pedometer_detailed: run+walk steps (either column may be
missing, a missing one counting as zero), else a generic count column;
monthly sums. -/
def aggregate_pedometer_detailed (df : DF) : List (Month × ℚ) :=
  if df.rows.isEmpty then []
  else
    match findColContaining df ("start_time") with
    | none => []
    | some ts_col =>
      let ts := clean_ts (getCol df ts_col)
      let runCol := findColContaining df ("run_step")
      let walkCol := findColContaining df ("walk_step")
      let stepsOpt : Option (List (Option ℚ)) :=
        if runCol.isSome || walkCol.isSome then
          let runVals := match runCol with
            | some c => (getCol df c).map toNum
            | none => df.rows.map (fun _ => some 0)
          let walkVals := match walkCol with
            | some c => (getCol df c).map toNum
            | none => df.rows.map (fun _ => some 0)
          some ((runVals.zip walkVals).map (fun p => some (p.1.getD 0 + p.2.getD 0)))
        else
          match findColContaining df ("count") with
          | none => none
          | some cnt => some ((getCol df cnt).map toNum)
      match stepsOpt with
      | none => []
      | some steps =>
        gbSum ((steps.zip ts).filterMap (fun p => match p.1, p.2 with
          | some sv, some t => some (monthOf t, sv)
          | _, _ => none))

/-- steps.aggregate_trend: numeric day_time timestamps and a generic count
column; monthly sums. -/
def aggregate_trend (df : DF) : List (Month × ℚ) :=
  if df.rows.isEmpty then []
  else
    match findColContaining df ("day_time") with
    | none => []
    | some ts_col =>
      let ts := clean_ts ((getCol df ts_col).map coerceNumField)
      match findColContaining df ("count") with
      | none => []
      | some cnt =>
        gbSum (((getCol df cnt).map toNum).zip ts |>.filterMap
          (fun p => match p.1, p.2 with
            | some sv, some t => some (monthOf t, sv)
            | _, _ => none))

/-- steps.load_day_summary_manual on the raw physical lines of the file (none
when the file is missing): line 1 is the header, lines 2.. are data, rows are
truncated or padded to the header width, blank lines are skipped.  Duplicate
header names (which dict(zip(..)) would collapse) are not modelled. -/
def load_day_summary_manual : Option (List String) → DF
  | none => ⟨[], []⟩
  | some lines =>
    if lines.length < 2 then ⟨[], []⟩
    else
      let header := (lines.getD 1 ("")).splitOn (",")
      let records := (lines.drop 2).filterMap (fun line =>
        if pyStrip line = ("") then none
        else
          let parts := line.splitOn (",")
          let parts := if header.length < parts.length then parts.take header.length else parts
          let parts := parts ++ List.replicate (header.length - parts.length) ("")
          some (parts.map Field.str))
      ⟨header, records⟩

/-- The reconciled step series: one source column per pipeline. -/
structure StepsSummary where
  merged : List (Month × ℚ × ℚ)
  detailed : List (Month × ℚ)
  trend : List (Month × ℚ)

/-- steps.summarize_steps over already-loaded sources: the pedometer and trend
tables as smart_load returns them (empty DF when the file is missing), the
day-summary source as its raw lines (none when the file is missing). -/
def summarize_steps (ped : DF) (dayLines : Option (List String)) (trn : DF) : StepsSummary :=
  { merged := aggregate_day_summary (load_day_summary_manual dayLines)
  , detailed := aggregate_pedometer_detailed ped
  , trend := aggregate_trend trn }

/-! ## format_steps_section month selection (steps.py).  The source collects
the union of months as "YYYY-MM" strings and sorts them, which is the
chronological order on (year, month) keys used here. -/

/-- Month lookup in the merged day-summary frame: (total, avg_daily). -/
def lookupMerged (merged : List (Month × ℚ × ℚ)) (m : Month) : Option (ℚ × ℚ) :=
  (merged.find? (fun r => r.1 = m)).map (·.2)

/-- Month lookup in a single-valued series. -/
def lookupSeries (s : List (Month × ℚ)) (m : Month) : Option ℚ :=
  (s.find? (fun r => r.1 = m)).map (·.2)

/-- The sorted union of months across the three sources. -/
def monthsUnion (merged : List (Month × ℚ × ℚ)) (detailed trend : List (Month × ℚ)) :
    List Month :=
  List.insertionSort MonthLe ((merged.map (·.1) ++ detailed.map (·.1) ++ trend.map (·.1)).dedup)

/-- The authoritative figure and displayed average for one month: the
merged > detailed > trend if/elif chain of format_steps_section. -/
def bestAvgFor (merged : List (Month × ℚ × ℚ)) (detailed trend : List (Month × ℚ))
    (m : Month) : Option ℚ × Option ℚ :=
  match lookupMerged merged m with
  | some ta => (some ta.1, some ta.2)
  | none =>
    match lookupSeries detailed m with
    | some d => (some d, none)
    | none =>
      match lookupSeries trend m with
      | some t => (some t, none)
      | none => (none, none)

/-- The per-month content of the Steps section: for each month of the union,
the authoritative value and the average shown. -/
def formatStepsRows (merged : List (Month × ℚ × ℚ)) (detailed trend : List (Month × ℚ)) :
    List (Month × (Option ℚ × Option ℚ)) :=
  (monthsUnion merged detailed trend).map (fun m => (m, bestAvgFor merged detailed trend m))

/-- The authoritative step figure the section reports for a month (none when
the month is absent from the section). -/
def bestReported (merged : List (Month × ℚ × ℚ)) (detailed trend : List (Month × ℚ))
    (m : Month) : Option (Option ℚ) :=
  ((formatStepsRows merged detailed trend).find? (fun r => r.1 = m)).map (fun r => r.2.1)

/-! ## HRVLinker (hrv.py) -/

/-- A cell of the HRV index table (read_csv with dtype=str): string or NaN. -/
inductive PyVal where
  | pna : PyVal
  | pstr (s : String) : PyVal
deriving DecidableEq, Repr

/-- One row of the HRV index table, in column order. -/
structure HRow where
  cells : List (String × PyVal)

/-- row.get(k): none when the column is absent. -/
def hrowGet (r : HRow) (k : String) : Option PyVal :=
  (r.cells.find? (fun c => c.1 = k)).map (·.2)

/-- row.values in column order. -/
def hrowValues (r : HRow) : List PyVal := r.cells.map (·.2)

/-- A row field carried into a record unchanged; non-strings become none. -/
def getStrCell (r : HRow) (k : String) : Option String :=
  match hrowGet r k with
  | some (PyVal.pstr s) => some s
  | _ => none

/-- A JSON scalar as json.loads produces it. -/
inductive JVal where
  | jnull : JVal
  | jbool (b : Bool) : JVal
  | jnum (q : ℚ) : JVal
  | jstr (s : String) : JVal
deriving DecidableEq, Repr

/-- Parsed top-level histogram content: a JSON object (its field list), an
array whose elements are objects, or another shape.  Arrays with non-object
first elements are outside the fragment the claims exercise. -/
inductive HistContent where
  | obj (fields : List (String × JVal)) : HistContent
  | arr (objs : List (List (String × JVal))) : HistContent
  | other : HistContent

/-- dict.get(k) on a JSON object. -/
def jget (fields : List (String × JVal)) (k : String) : Option JVal :=
  (fields.find? (fun f => f.1 = k)).map (·.2)

/-- Python float() on a JSON value; error is a raised exception
(float(None) and float of a non-numeric string raise). -/
def pyFloat : JVal → Except Unit ℚ
  | JVal.jnum q => Except.ok q
  | JVal.jbool b => Except.ok (if b then 1 else 0)
  | JVal.jstr s =>
    match parseNum s with
    | some q => Except.ok q
    | none => Except.error ()
  | JVal.jnull => Except.error ()

/-- Free-text pd.to_datetime(val, errors="coerce") on a JSON value inside the
histogram date chain; non-strings yield NaT here (a numeric value never
reaches this branch, float() succeeding on it first). -/
def jvalTextDate : JVal → Option Day
  | JVal.jstr s => parseDateText s
  | _ => none

/-- The candidate date fields of _extract_date_from_json, in trial order. -/
def dateKeys : List String :=
  ["date", "day_time", "recorded_date", "recorded_at", "timestamp", "start_time"]

/-- The key loop of hrv._extract_date_from_json: for each candidate key that
is present, numeric epoch-ms first, free-text second; the first parse that
produces a date wins.  There is no year-validity gate on this path. -/
def extractDateKeys (fields : List (String × JVal)) : List String → Option Day
  | [] => none
  | k :: ks =>
    match jget fields k with
    | none => extractDateKeys fields ks
    | some v =>
      match pyFloat v with
      | Except.ok q =>
        match msToDayOpt q with
        | some d => some d
        | none => extractDateKeys fields ks
      | Except.error _ =>
        match jvalTextDate v with
        | some d => some d
        | none => extractDateKeys fields ks

/-- hrv._extract_date_from_json on a histogram object. -/
def extractDateFromJson (fields : List (String × JVal)) : Option Day :=
  extractDateKeys fields dateKeys

/-- The column loop of hrv._date_from_row_fields: free-text parse of string
cells, accepted only when the year is ≥ 2005, else try the next column. -/
def rowFieldDate (r : HRow) : List String → Option Day
  | [] => none
  | c :: cs =>
    match hrowGet r c with
    | some (PyVal.pstr s) =>
      match parseDateText s with
      | some d => if 2005 ≤ yearOf d then some d else rowFieldDate r cs
      | none => rowFieldDate r cs
    | _ => rowFieldDate r cs

/-- hrv._date_from_row_fields: update_time, then create_time. -/
def dateFromRowFields (r : HRow) : Option Day :=
  rowFieldDate r ["update_time", "create_time"]

/-- The fixed histogram-file suffix. -/
def binSuffix : String := ".binning_data.json"

/-- Fuelled worker of replList; the fuel (initially the list length) only
makes the recursion structural, since every step consumes at least one char. -/
def replGo (pat : List Char) : Nat → List Char → List Char
  | _, [] => []
  | 0, l => l
  | fuel + 1, c :: rest =>
    if pat ≠ [] ∧ pat.isPrefixOf (c :: rest) then
      replGo pat fuel ((c :: rest).drop pat.length)
    else c :: replGo pat fuel rest

/-- Python str.replace(pat, "") — drop every (leftmost-first, non-overlapping)
occurrence of pat. -/
def replList (pat l : List Char) : List Char := replGo pat l.length l

/-- dict.setdefault(k, []).append(v) over an insertion-ordered mapping. -/
def assocAppend (index : List (String × List String)) (k v : String) :
    List (String × List String) :=
  if index.any (fun e => e.1 = k) then
    index.map (fun e => if e.1 = k then (e.1, e.2 ++ [v]) else e)
  else index ++ [(k, [v])]

/-- hrv._build_json_index: index every file name to its paths, additionally
re-indexing .binning_data.json names under name.replace(suffix, "") + suffix.
Paths are identified with names (a flat directory). -/
def buildIndex (files : List String) : List (String × List String) :=
  files.foldl (fun idx p =>
    let idx := assocAppend idx p p
    if strEndsWith p binSuffix then
      assocAppend idx (String.mk (replList binSuffix.toList p.toList) ++ binSuffix) p
    else idx) []

/-- json_index.get(k). -/
def assocGet (index : List (String × List String)) (k : String) : Option (List String) :=
  (index.find? (fun e => e.1 = k)).map (·.2)

/-- The fallback loop of reference resolution: the first indexed entry whose
name contains the reference or is contained in it, in index order. -/
def substrFallback (ref : String) (index : List (String × List String)) : Option String :=
  index.findSome? (fun e =>
    if listContainsSub e.1.toList ref.toList || listContainsSub ref.toList e.1.toList then
      e.2.head?
    else none)

/-- Reference resolution in summarize_hrv: exact index lookup first (used when
it holds at least one path), else the substring fallback. -/
def resolveRef (index : List (String × List String)) (ref : String) : Option String :=
  match assocGet index ref with
  | some (p :: _) => some p
  | _ => substrFallback ref index

/-- A row cell holding a histogram reference: a string whose stripped form
ends in the fixed suffix (scan branch of summarize_hrv). -/
def cellBinRef (v : PyVal) : Option String :=
  match v with
  | PyVal.pstr s => if strEndsWith (pyStrip s) binSuffix then some (pyStrip s) else none
  | _ => none

/-- Histogram-reference extraction: the binning_data column when it is a
string with the right suffix, else the first such string anywhere in the row;
the result is stripped (the code strips bin_ref before use). -/
def extractBinRef (r : HRow) : Option String :=
  match hrowGet r ("binning_data") with
  | some (PyVal.pstr s) =>
    if strEndsWith (pyStrip s) binSuffix then some (pyStrip s)
    else (hrowValues r).findSome? cellBinRef
  | _ => (hrowValues r).findSome? cellBinRef

/-- A histogram file on disk: parse outcome (none when json.loads raises) and
last-modified time, already converted to a day count. -/
structure HFile where
  parsed : Option HistContent
  mtime : Option Day

/-- Top-level shape handling of the parsed histogram: an object, or the first
element of a non-empty array; anything else is a skip. -/
def histDict : HistContent → Option (List (String × JVal))
  | HistContent.obj f => some f
  | HistContent.arr [] => none
  | HistContent.arr (f :: _) => some f
  | HistContent.other => none

/-- One daily HRV record as assembled by summarize_hrv. -/
structure Entry where
  date : Day
  sdnn : Option ℚ
  rmssd : Option ℚ
  total_samples : Option Int
  create_sh_ver : Option String
  modify_sh_ver : Option String
  deviceuuid : Option String
deriving DecidableEq, Repr

deriving instance DecidableEq for Except

/-- float(x) if x is not None else None — a JSON null is Python None; errors
are raised exceptions, not skips. -/
def coerceFloatOpt : Option JVal → Except Unit (Option ℚ)
  | none => Except.ok none
  | some JVal.jnull => Except.ok none
  | some v => (pyFloat v).map some

/-- Python int() for total_samples: truncation toward zero on numbers,
integer-literal strings only; errors are raised exceptions. -/
def pyInt : JVal → Except Unit Int
  | JVal.jnum q => Except.ok (q.num.tdiv (q.den : Int))
  | JVal.jbool b => Except.ok (if b then 1 else 0)
  | JVal.jstr s =>
    match parseIntStr s with
    | some n => Except.ok n
    | none => Except.error ()
  | JVal.jnull => Except.error ()

/-- int(x) if x is not None else None. -/
def coerceIntOpt : Option JVal → Except Unit (Option Int)
  | none => Except.ok none
  | some JVal.jnull => Except.ok none
  | some v => (pyInt v).map some

/-- The per-row body of the summarize_hrv loop: extract and resolve the
histogram reference, parse the file, resolve the date through the fallback
chain, then assemble the record.  ok none is a skipped row; error is an
uncaught Python exception aborting the whole run. -/
def processRow (index : List (String × List String)) (fs : List (String × HFile))
    (r : HRow) : Except Unit (Option Entry) :=
  match extractBinRef r with
  | none => Except.ok none
  | some ref =>
    match resolveRef index ref with
    | none => Except.ok none
    | some path =>
      match (fs.find? (fun e => e.1 = path)).map (·.2) with
      | none => Except.ok none
      | some file =>
        match file.parsed with
        | none => Except.ok none
        | some content =>
          match histDict content with
          | none => Except.ok none
          | some fields =>
            match (extractDateFromJson fields <|> dateFromRowFields r) <|> file.mtime with
            | none => Except.ok none
            | some d => do
              let sdnn ← coerceFloatOpt (jget fields ("sdnn"))
              let rmssd ← coerceFloatOpt (jget fields ("rmssd"))
              let samples ← coerceIntOpt (jget fields ("total_samples"))
              Except.ok (some
                { date := d, sdnn := sdnn, rmssd := rmssd, total_samples := samples
                , create_sh_ver := getStrCell r ("create_sh_ver")
                , modify_sh_ver := getStrCell r ("modify_sh_ver")
                , deviceuuid := getStrCell r ("deviceuuid") })

/-- The whole extraction loop: records in row order; a raised exception
anywhere aborts the run. -/
def processRows (index : List (String × List String)) (fs : List (String × HFile)) :
    List HRow → Except Unit (List Entry)
  | [] => Except.ok []
  | r :: rest => do
    let o ← processRow index fs r
    let others ← processRows index fs rest
    Except.ok (match o with | some e => e :: others | none => others)

/-! ## Deduplication and monthly aggregation of summarize_hrv -/

/-- NaN-last comparison of optional strings (pandas na_position default):
a missing value sorts after every present one. -/
def optStrLt : Option String → Option String → Bool
  | some a, some b => strLt a b
  | some _, none => true
  | none, _ => false

/-- The matching non-strict comparison. -/
def optStrLe (a b : Option String) : Bool := optStrLt a b || a = b

/-- The dedup subset: (deviceuuid, date). -/
def entryKey (e : Entry) : Option String × Day := (e.deviceuuid, e.date)

/-- Row order of sort_values(["deviceuuid", "date", "modify_sh_ver"]). -/
def entryLe (a b : Entry) : Bool :=
  if a.deviceuuid = b.deviceuuid then
    if a.date = b.date then optStrLe a.modify_sh_ver b.modify_sh_ver
    else decide (a.date < b.date)
  else optStrLt a.deviceuuid b.deviceuuid

/-- entryLe as a decidable relation for List.insertionSort. -/
def EntryLe (a b : Entry) : Prop := entryLe a b = true

instance : DecidableRel EntryLe :=
  fun a b => inferInstanceAs (Decidable (entryLe a b = true))

/-- The dedup stage of summarize_hrv: sort by (deviceuuid, date,
modify_sh_ver), keep the last row of each (deviceuuid, date) pair. -/
def dedupEntries (es : List Entry) : List Entry :=
  dropDupKeepLast entryKey (List.insertionSort EntryLe es)

/-- The entries of one calendar month. -/
def entriesInMonth (l : List Entry) (m : Month) : List Entry :=
  l.filter (fun e => monthOf e.date = m)

/-- days_with_hrv: the distinct-date count of a month (date nunique). -/
def daysWithHrv (l : List Entry) (m : Month) : Nat :=
  ((entriesInMonth l m).map (fun e => e.date)).dedup.length

/-- avg_rmssd of a month: 1-decimal mean of the non-null values (pandas mean
skips NaN); none when the month has no non-null value. -/
def avgRmssdAt (l : List Entry) (m : Month) : Option ℚ :=
  let vals := (entriesInMonth l m).filterMap (fun e => e.rmssd)
  if vals.isEmpty then none else some (round1 (vals.sum / (vals.length : ℚ)))

/-- avg_sdnn of a month, as avg_rmssd. -/
def avgSdnnAt (l : List Entry) (m : Month) : Option ℚ :=
  let vals := (entriesInMonth l m).filterMap (fun e => e.sdnn)
  if vals.isEmpty then none else some (round1 (vals.sum / (vals.length : ℚ)))

/-- The monthly HRV summary of summarize_hrv over the deduplicated daily
entries: per month, (avg_rmssd, avg_sdnn, days_with_hrv). -/
def monthlyAgg (daily : List Entry) : List (Month × (Option ℚ × Option ℚ × Nat)) :=
  (sortedMonths (daily.map (fun e => monthOf e.date))).map
    (fun m => (m, (avgRmssdAt daily m, avgSdnnAt daily m, daysWithHrv daily m)))

/-- Month lookup in the monthly summary. -/
def monthLookup (rows : List (Month × (Option ℚ × Option ℚ × Nat))) (m : Month) :
    Option (Option ℚ × Option ℚ × Nat) :=
  (rows.find? (fun r => r.1 = m)).map (·.2)

/-! ## Concrete fixtures used by the claim theorems and witnesses -/

/-- Index over two histogram files. -/
def hrvFixIdx : List (String × List String) :=
  buildIndex [("f1.binning_data.json"), ("f2.binning_data.json")]

/-- Two histogram files: one whose sdnn is a non-numeric string, one clean. -/
def hrvFixFs : List (String × HFile) :=
  [(("f1.binning_data.json"),
    ⟨some (HistContent.obj [(("date"), JVal.jstr ("2023-06-01")), (("sdnn"), JVal.jstr ("n/a"))]),
     none⟩),
   (("f2.binning_data.json"),
    ⟨some (HistContent.obj [(("date"), JVal.jstr ("2023-06-02")), (("sdnn"), JVal.jnum 50),
        (("rmssd"), JVal.jnum 40), (("total_samples"), JVal.jnum 120)]),
     none⟩)]

/-- The index row referencing the defective histogram. -/
def hrvRowBad : HRow :=
  ⟨[(("binning_data"), PyVal.pstr ("f1.binning_data.json")),
    (("deviceuuid"), PyVal.pstr ("dev1"))]⟩

/-- The index row referencing the clean histogram. -/
def hrvRowGood : HRow :=
  ⟨[(("binning_data"), PyVal.pstr ("f2.binning_data.json")),
    (("deviceuuid"), PyVal.pstr ("dev1"))]⟩

/-- The record the clean row extracts to. -/
def hrvGoodEntry : Entry :=
  { date := daysFromCivil 2023 6 2, sdnn := some 50, rmssd := some 40,
    total_samples := some 120, create_sh_ver := none, modify_sh_ver := none,
    deviceuuid := some ("dev1") }

/-- Fixture entry: same device and date as entB, lower modify version. -/
def entA : Entry :=
  { date := daysFromCivil 2024 1 5, sdnn := some 41, rmssd := some 42,
    total_samples := some 10, create_sh_ver := some ("6.0"), modify_sh_ver := some ("6.1"),
    deviceuuid := some ("devA") }

/-- Fixture entry: duplicate of entA's (device, date) with higher version. -/
def entB : Entry :=
  { date := daysFromCivil 2024 1 5, sdnn := some 44, rmssd := some 43,
    total_samples := some 12, create_sh_ver := some ("6.0"), modify_sh_ver := some ("6.2"),
    deviceuuid := some ("devA") }

/-- Fixture entry: both metrics null, a fresh date in entA's month. -/
def entNull : Entry :=
  { date := daysFromCivil 2024 1 6, sdnn := none, rmssd := none,
    total_samples := none, create_sh_ver := none, modify_sh_ver := some ("6.1"),
    deviceuuid := some ("devA") }

/-! ## Helper lemmas: comparators -/

theorem charEq_of_toNat {a b : Char} (h : a.toNat = b.toNat) : a = b :=
  Char.ext (UInt32.ext h)

theorem lexLt_irrefl : ∀ l : List Char, lexLt l l = false
  | [] => rfl
  | a :: as => by simp [lexLt, lexLt_irrefl as]

theorem lexLt_trans (a : List Char) :
    ∀ b c, lexLt a b = true → lexLt b c = true → lexLt a c = true := by
  induction a with
  | nil =>
    intro b c h1 h2
    cases b with
    | nil => simp [lexLt] at h1
    | cons y ys =>
      cases c with
      | nil => simp [lexLt] at h2
      | cons z zs => rfl
  | cons x xs ih =>
    intro b c h1 h2
    cases b with
    | nil => simp [lexLt] at h1
    | cons y ys =>
      cases c with
      | nil => simp [lexLt] at h2
      | cons z zs =>
        simp only [lexLt] at h1 h2 ⊢
        by_cases hxy : x = y
        · subst hxy
          by_cases hyz : x = z
          · subst hyz
            rw [if_pos rfl] at h1 h2 ⊢
            exact ih ys zs h1 h2
          · rw [if_pos rfl] at h1
            rw [if_neg hyz] at h2 ⊢
            exact h2
        · by_cases hyz : y = z
          · subst hyz
            rw [if_neg hxy] at h1 ⊢
            exact h1
          · rw [if_neg hxy] at h1
            rw [if_neg hyz] at h2
            simp only [charLt, decide_eq_true_eq] at h1 h2
            by_cases hxz : x = z
            · subst hxz; omega
            · rw [if_neg hxz]
              simp only [charLt, decide_eq_true_eq]
              omega

theorem lexLt_total (a : List Char) :
    ∀ b, a = b ∨ lexLt a b = true ∨ lexLt b a = true := by
  induction a with
  | nil =>
    intro b
    cases b with
    | nil => exact Or.inl rfl
    | cons y ys => exact Or.inr (Or.inl rfl)
  | cons x xs ih =>
    intro b
    cases b with
    | nil => exact Or.inr (Or.inr rfl)
    | cons y ys =>
      by_cases hxy : x = y
      · subst hxy
        rcases ih ys with h | h | h
        · exact Or.inl (by rw [h])
        · refine Or.inr (Or.inl ?_)
          simp [lexLt, h]
        · refine Or.inr (Or.inr ?_)
          simp [lexLt, h]
      · rcases Nat.lt_trichotomy x.toNat y.toNat with h | h | h
        · refine Or.inr (Or.inl ?_)
          simp [lexLt, hxy, charLt, h]
        · exact absurd (charEq_of_toNat h) hxy
        · refine Or.inr (Or.inr ?_)
          have hyx : ¬y = x := fun he => hxy he.symm
          simp [lexLt, hyx, charLt, h]

theorem lexLt_asymm {a b : List Char} (h1 : lexLt a b = true) (h2 : lexLt b a = true) : False := by
  have := lexLt_trans a b a h1 h2
  rw [lexLt_irrefl] at this
  exact Bool.false_ne_true this

theorem strEq_of_toList {a b : String} (h : a.toList = b.toList) : a = b :=
  String.ext h

theorem optStrLt_irrefl : ∀ a : Option String, optStrLt a a = false
  | none => rfl
  | some s => by simp [optStrLt, strLt, lexLt_irrefl]

theorem optStrLt_trans {a b c : Option String} (h1 : optStrLt a b = true)
    (h2 : optStrLt b c = true) : optStrLt a c = true := by
  cases a with
  | none => simp [optStrLt] at h1
  | some x =>
    cases b with
    | none => simp [optStrLt] at h2
    | some y =>
      cases c with
      | none => rfl
      | some z =>
        simp only [optStrLt, strLt] at h1 h2 ⊢
        exact lexLt_trans _ _ _ h1 h2

theorem optStrLt_asymm {a b : Option String} (h1 : optStrLt a b = true)
    (h2 : optStrLt b a = true) : False := by
  have := optStrLt_trans h1 h2
  rw [optStrLt_irrefl] at this
  exact Bool.false_ne_true this

theorem optStrLt_total_of_ne {a b : Option String} (h : a ≠ b) :
    optStrLt a b = true ∨ optStrLt b a = true := by
  cases a with
  | none =>
    cases b with
    | none => exact absurd rfl h
    | some y => exact Or.inr rfl
  | some x =>
    cases b with
    | none => exact Or.inl rfl
    | some y =>
      rcases lexLt_total x.toList y.toList with he | hlt | hgt
      · exact absurd (by rw [strEq_of_toList he]) h
      · exact Or.inl (by simpa [optStrLt, strLt] using hlt)
      · exact Or.inr (by simpa [optStrLt, strLt] using hgt)

theorem optStrLe_refl (a : Option String) : optStrLe a a = true := by
  simp [optStrLe]

theorem optStrLe_total (a b : Option String) : optStrLe a b = true ∨ optStrLe b a = true := by
  by_cases h : a = b
  · subst h; exact Or.inl (optStrLe_refl a)
  · rcases optStrLt_total_of_ne h with h1 | h1
    · exact Or.inl (by simp [optStrLe, h1])
    · exact Or.inr (by simp [optStrLe, h1])

theorem optStrLe_trans {a b c : Option String} (h1 : optStrLe a b = true)
    (h2 : optStrLe b c = true) : optStrLe a c = true := by
  simp only [optStrLe, Bool.or_eq_true, decide_eq_true_eq] at h1 h2 ⊢
  rcases h1 with h1 | h1
  · rcases h2 with h2 | h2
    · exact Or.inl (optStrLt_trans h1 h2)
    · subst h2; exact Or.inl h1
  · subst h1; exact h2

theorem entryLe_total (a b : Entry) : entryLe a b = true ∨ entryLe b a = true := by
  unfold entryLe
  by_cases hd : a.deviceuuid = b.deviceuuid
  · rw [if_pos hd, if_pos hd.symm]
    by_cases hdt : a.date = b.date
    · rw [if_pos hdt, if_pos hdt.symm]
      exact optStrLe_total _ _
    · rw [if_neg hdt, if_neg (fun h => hdt h.symm)]
      rcases Int.lt_or_lt_of_ne hdt with h | h
      · exact Or.inl (by simpa using h)
      · exact Or.inr (by simpa using h)
  · rw [if_neg hd, if_neg (fun h => hd h.symm)]
    exact optStrLt_total_of_ne hd

theorem entryLe_trans (a b c : Entry) (h1 : entryLe a b = true) (h2 : entryLe b c = true) :
    entryLe a c = true := by
  unfold entryLe at h1 h2 ⊢
  by_cases dab : a.deviceuuid = b.deviceuuid
  · rw [if_pos dab] at h1
    by_cases dbc : b.deviceuuid = c.deviceuuid
    · rw [if_pos dbc] at h2
      rw [if_pos (dab.trans dbc)]
      by_cases tab : a.date = b.date
      · rw [if_pos tab] at h1
        by_cases tbc : b.date = c.date
        · rw [if_pos (tab.trans tbc)]
          rw [if_pos tbc] at h2
          exact optStrLe_trans h1 h2
        · rw [if_neg tbc] at h2
          rw [if_neg (tab ▸ tbc), tab]
          exact h2
      · rw [if_neg tab] at h1
        by_cases tbc : b.date = c.date
        · rw [if_neg (tbc ▸ tab), ← tbc]
          exact h1
        · rw [if_neg tbc] at h2
          simp only [decide_eq_true_eq] at h1 h2
          have hac : a.date < c.date := h1.trans h2
          rw [if_neg (Int.ne_of_lt hac)]
          simpa using hac
    · rw [if_neg dbc] at h2
      rw [if_neg (dab ▸ dbc), dab]
      exact h2
  · rw [if_neg dab] at h1
    by_cases dbc : b.deviceuuid = c.deviceuuid
    · rw [if_neg (dbc ▸ dab), ← dbc]
      exact h1
    · rw [if_neg dbc] at h2
      have hlt := optStrLt_trans h1 h2
      have hne : a.deviceuuid ≠ c.deviceuuid := by
        intro he
        rw [he] at h1
        exact optStrLt_asymm h2 h1
      rw [if_neg hne]
      exact hlt

theorem entryLe_of_keys_eq {a b : Entry} (h : entryKey a = entryKey b) :
    entryLe a b = optStrLe a.modify_sh_ver b.modify_sh_ver := by
  have hd : a.deviceuuid = b.deviceuuid := congrArg Prod.fst h
  have ht : a.date = b.date := congrArg Prod.snd h
  rw [entryLe, if_pos hd, if_pos ht]

/-! ## Helper lemmas: drop_duplicates(keep="last") -/

theorem dropDupKeepLast_sublist (key : α → κ) [DecidableEq κ] :
    ∀ l : List α, List.Sublist (dropDupKeepLast key l) l := by
  intro l
  induction l with
  | nil => simp [dropDupKeepLast]
  | cons a rest ih =>
    simp only [dropDupKeepLast]
    split
    · exact ih.cons a
    · exact ih.cons₂ a

theorem dropDupKeepLast_keysNodup (key : α → κ) [DecidableEq κ] :
    ∀ l : List α, (dropDupKeepLast key l).Pairwise (fun a b => key a ≠ key b) := by
  intro l
  induction l with
  | nil => simp [dropDupKeepLast]
  | cons a rest ih =>
    simp only [dropDupKeepLast]
    split
    · exact ih
    · refine List.Pairwise.cons ?_ ih
      intro b hb
      have hbr : b ∈ rest := (dropDupKeepLast_sublist key rest).mem hb
      rename_i hany
      simp only [List.any_eq_true, decide_eq_true_eq, not_exists, not_and] at hany
      exact fun he => hany b hbr he.symm

theorem dropDupKeepLast_coverage (key : α → κ) [DecidableEq κ] :
    ∀ l : List α, ∀ b ∈ l, ∃ a ∈ dropDupKeepLast key l, key a = key b := by
  intro l
  induction l with
  | nil => simp
  | cons x rest ih =>
    intro b hb
    simp only [dropDupKeepLast]
    split
    · rename_i hany
      simp only [List.any_eq_true, decide_eq_true_eq] at hany
      rcases List.mem_cons.mp hb with hbx | hbr
      · subst hbx
        rcases hany with ⟨c, hc, hck⟩
        rcases ih c hc with ⟨a, ha, hak⟩
        exact ⟨a, ha, hak.trans hck⟩
      · exact ih b hbr
    · rcases List.mem_cons.mp hb with hbx | hbr
      · subst hbx
        exact ⟨b, List.mem_cons_self _ _, rfl⟩
      · rcases ih b hbr with ⟨a, ha, hak⟩
        exact ⟨a, List.mem_cons_of_mem _ ha, hak⟩

theorem dropDupKeepLast_eq_self (key : α → κ) [DecidableEq κ] :
    ∀ l : List α, l.Pairwise (fun a b => key a ≠ key b) → dropDupKeepLast key l = l := by
  intro l
  induction l with
  | nil => intro _; rfl
  | cons a rest ih =>
    intro hp
    rcases List.pairwise_cons.mp hp with ⟨hhead, htail⟩
    simp only [dropDupKeepLast]
    rw [if_neg, ih htail]
    simp only [List.any_eq_true, decide_eq_true_eq, not_exists, not_and]
    exact fun b hb he => hhead b hb he.symm

theorem dropDupKeepLast_max_modify :
    ∀ l : List Entry, l.Sorted EntryLe →
      ∀ a ∈ dropDupKeepLast entryKey l, ∀ b ∈ l, entryKey b = entryKey a →
        optStrLe b.modify_sh_ver a.modify_sh_ver = true := by
  intro l
  induction l with
  | nil => simp
  | cons x rest ih =>
    intro hs a ha b hb hk
    have hx : ∀ c ∈ rest, EntryLe x c := (List.pairwise_cons.mp hs).1
    have hs' : rest.Sorted EntryLe := (List.pairwise_cons.mp hs).2
    simp only [dropDupKeepLast] at ha
    split at ha
    · rcases List.mem_cons.mp hb with hbx | hbr
      · subst hbx
        have ham : a ∈ rest := (dropDupKeepLast_sublist entryKey rest).mem ha
        have hle : entryLe b a = true := hx a ham
        rwa [entryLe_of_keys_eq hk] at hle
      · exact ih hs' a ha b hbr hk
    · rename_i hany
      simp only [List.any_eq_true, decide_eq_true_eq, not_exists, not_and] at hany
      rcases List.mem_cons.mp ha with hax | har
      · subst hax
        rcases List.mem_cons.mp hb with hbx | hbr
        · subst hbx; exact optStrLe_refl _
        · exact absurd hk (hany b hbr)
      · rcases List.mem_cons.mp hb with hbx | hbr
        · subst hbx
          have ham : a ∈ rest := (dropDupKeepLast_sublist entryKey rest).mem har
          have hle : entryLe b a = true := hx a ham
          rwa [entryLe_of_keys_eq hk] at hle
        · exact ih hs' a har b hbr hk

/-! ## Helper lemmas: lookups and month sets -/

theorem find_map_pair {κ β : Type} [DecidableEq κ] (f : κ → β) (m : κ) :
    ∀ ms : List κ, m ∈ ms →
      (ms.map (fun x => (x, f x))).find? (fun p => p.1 = m) = some (m, f m) := by
  intro ms
  induction ms with
  | nil => simp
  | cons x rest ih =>
    intro hm
    simp only [List.map_cons]
    by_cases hx : x = m
    · subst hx
      rw [List.find?_cons_of_pos _ (by simp)]
    · rw [List.find?_cons_of_neg _ (by simp [hx])]
      refine ih ?_
      rcases List.mem_cons.mp hm with h | h
      · exact absurd h.symm hx
      · exact h

theorem mem_sortedMonths {m : Month} {ms : List Month} : m ∈ sortedMonths ms ↔ m ∈ ms := by
  unfold sortedMonths
  rw [(List.perm_insertionSort MonthLe ms.dedup).mem_iff, List.mem_dedup]

theorem monthLookup_monthlyAgg (daily : List Entry) (m : Month)
    (hm : m ∈ daily.map (fun e => monthOf e.date)) :
    monthLookup (monthlyAgg daily) m =
      some (avgRmssdAt daily m, avgSdnnAt daily m, daysWithHrv daily m) := by
  unfold monthLookup monthlyAgg
  rw [find_map_pair (fun m => (avgRmssdAt daily m, avgSdnnAt daily m, daysWithHrv daily m)) m _
    (mem_sortedMonths.mpr hm)]
  rfl

theorem length_dedup_append_singleton [DecidableEq α] (xs : List α) (d : α) :
    (xs ++ [d]).dedup.length = xs.dedup.length + (if d ∈ xs then 0 else 1) := by
  rw [← List.card_toFinset, ← List.card_toFinset, List.toFinset_append]
  have hsing : ([d] : List α).toFinset = {d} := by simp
  rw [hsing, Finset.union_comm, ← Finset.insert_eq]
  by_cases hd : d ∈ xs
  · rw [Finset.insert_eq_self.mpr (List.mem_toFinset.mpr hd), if_pos hd]
    omega
  · rw [Finset.card_insert_of_not_mem (fun hc => hd (List.mem_toFinset.mp hc)), if_neg hd]

/-! ## Claim C6: dedup invariant -/

/-- C6: after HRVLinker deduplication there is at most one entry per
(device_id, date) pair; every retained entry comes from the input; and for
every input entry there is a retained entry of the same key whose
modify_sh_ver is greatest (in the sort's NaN-last order) among all input
entries of that key. -/
theorem hrv_dedup_invariant (es : List Entry) :
    (dedupEntries es).Pairwise (fun a b => entryKey a ≠ entryKey b)
    ∧ (∀ a ∈ dedupEntries es, a ∈ es)
    ∧ ∀ b ∈ es, ∃ a ∈ dedupEntries es, entryKey a = entryKey b
        ∧ ∀ c ∈ es, entryKey c = entryKey b →
            optStrLe c.modify_sh_ver a.modify_sh_ver = true := by
  haveI : IsTotal Entry EntryLe := ⟨fun a b => entryLe_total a b⟩
  haveI : IsTrans Entry EntryLe := ⟨fun a b c h1 h2 => entryLe_trans a b c h1 h2⟩
  have hperm := List.perm_insertionSort EntryLe es
  have hsor : (List.insertionSort EntryLe es).Sorted EntryLe :=
    List.sorted_insertionSort EntryLe es
  refine ⟨dropDupKeepLast_keysNodup entryKey _, ?_, ?_⟩
  · intro a ha
    exact hperm.subset ((dropDupKeepLast_sublist entryKey _).mem ha)
  · intro b hb
    have hbs : b ∈ List.insertionSort EntryLe es := hperm.mem_iff.mpr hb
    rcases dropDupKeepLast_coverage entryKey _ b hbs with ⟨a, ha, hk⟩
    refine ⟨a, ha, hk, ?_⟩
    intro c hc hkc
    exact dropDupKeepLast_max_modify _ hsor a ha c (hperm.mem_iff.mpr hc) (hkc.trans hk.symm)

/-- Witness for C6 at a concrete duplicate pair: the deduplicated set has
pairwise-distinct keys and some retained entry dominates both inputs. -/
theorem hrv_dedup_invariant_witness :
    (dedupEntries [entA, entB]).Pairwise (fun a b => entryKey a ≠ entryKey b)
    ∧ ∃ a ∈ dedupEntries [entA, entB], entryKey a = entryKey entA
        ∧ ∀ c ∈ [entA, entB], entryKey c = entryKey entA →
            optStrLe c.modify_sh_ver a.modify_sh_ver = true :=
  ⟨(hrv_dedup_invariant [entA, entB]).1,
   (hrv_dedup_invariant [entA, entB]).2.2 entA (by decide)⟩

/-! ## Claim C9: dedup idempotence -/

/-- C9: re-running the sort-and-keep-last deduplication on its own output
yields that output unchanged. -/
theorem hrv_dedup_idempotent (es : List Entry) :
    dedupEntries (dedupEntries es) = dedupEntries es := by
  haveI : IsTotal Entry EntryLe := ⟨fun a b => entryLe_total a b⟩
  haveI : IsTrans Entry EntryLe := ⟨fun a b c h1 h2 => entryLe_trans a b c h1 h2⟩
  have hsor : (List.insertionSort EntryLe es).Sorted EntryLe :=
    List.sorted_insertionSort EntryLe es
  have hd : (dedupEntries es).Sorted EntryLe :=
    List.Pairwise.sublist (dropDupKeepLast_sublist entryKey _) hsor
  show dropDupKeepLast entryKey (List.insertionSort EntryLe (dedupEntries es)) = dedupEntries es
  rw [List.Sorted.insertionSort_eq hd]
  exact dropDupKeepLast_eq_self entryKey _ (dropDupKeepLast_keysNodup entryKey _)

/-! ## Claim C10: null-metric entries in the monthly summary -/

/-- C10: appending a deduplicated entry whose sdnn and rmssd are both null
leaves both monthly means unchanged, while its date still counts toward
days_with_hrv (one more when the date is new to the month). -/
theorem hrv_null_metric_entry (l : List Entry) (e : Entry)
    (hs : e.sdnn = none) (hr : e.rmssd = none) :
    monthLookup (monthlyAgg (l ++ [e])) (monthOf e.date) =
      some (avgRmssdAt l (monthOf e.date), avgSdnnAt l (monthOf e.date),
        daysWithHrv l (monthOf e.date) +
          (if e.date ∈ (entriesInMonth l (monthOf e.date)).map (fun x => x.date)
            then 0 else 1)) := by
  have hmem : monthOf e.date ∈ (l ++ [e]).map (fun x => monthOf x.date) :=
    List.mem_map.mpr ⟨e, by simp, rfl⟩
  rw [monthLookup_monthlyAgg _ _ hmem]
  have hEIM : entriesInMonth (l ++ [e]) (monthOf e.date) =
      entriesInMonth l (monthOf e.date) ++ [e] := by
    unfold entriesInMonth
    rw [List.filter_append]
    simp
  have hrm : avgRmssdAt (l ++ [e]) (monthOf e.date) = avgRmssdAt l (monthOf e.date) := by
    unfold avgRmssdAt
    rw [hEIM, List.filterMap_append]
    simp [hr]
  have hsd : avgSdnnAt (l ++ [e]) (monthOf e.date) = avgSdnnAt l (monthOf e.date) := by
    unfold avgSdnnAt
    rw [hEIM, List.filterMap_append]
    simp [hs]
  have hdays : daysWithHrv (l ++ [e]) (monthOf e.date) =
      daysWithHrv l (monthOf e.date) +
        (if e.date ∈ (entriesInMonth l (monthOf e.date)).map (fun x => x.date)
          then 0 else 1) := by
    unfold daysWithHrv
    rw [hEIM, List.map_append]
    simpa using
      length_dedup_append_singleton
        ((entriesInMonth l (monthOf e.date)).map (fun x => x.date)) e.date
  rw [hrm, hsd, hdays]

/-- Witness for C10 at a concrete null-metric entry with a fresh date. -/
theorem hrv_null_metric_entry_witness :
    monthLookup (monthlyAgg ([entB] ++ [entNull])) (monthOf entNull.date) =
      some (avgRmssdAt [entB] (monthOf entNull.date), avgSdnnAt [entB] (monthOf entNull.date),
        daysWithHrv [entB] (monthOf entNull.date) +
          (if entNull.date ∈ (entriesInMonth [entB] (monthOf entNull.date)).map (fun x => x.date)
            then 0 else 1)) :=
  hrv_null_metric_entry [entB] entNull rfl rfl

/-! ## Claim C1: authoritative step precedence -/

/-- C1: for every month of the reported series, the authoritative figure is
the day-summary merged total when present, else the detailed total, else the
trend total. -/
theorem steps_authoritative_precedence (merged : List (Month × ℚ × ℚ))
    (detailed trend : List (Month × ℚ)) (m : Month)
    (hm : m ∈ merged.map (fun r => r.1) ++ detailed.map (fun r => r.1)
        ++ trend.map (fun r => r.1)) :
    bestReported merged detailed trend m =
      some (match lookupMerged merged m with
        | some ta => some ta.1
        | none =>
          match lookupSeries detailed m with
          | some d => some d
          | none => lookupSeries trend m) := by
  have hmem : m ∈ monthsUnion merged detailed trend := by
    unfold monthsUnion
    rw [(List.perm_insertionSort MonthLe _).mem_iff, List.mem_dedup]
    exact hm
  unfold bestReported formatStepsRows
  rw [find_map_pair (bestAvgFor merged detailed trend) m _ hmem]
  show some (bestAvgFor merged detailed trend m).1 = _
  unfold bestAvgFor
  cases lookupMerged merged m with
  | some ta => rfl
  | none =>
    cases lookupSeries detailed m with
    | some d => rfl
    | none =>
      cases lookupSeries trend m with
      | some t => rfl
      | none => rfl

/-- Witness for C1: day-summary 9000, detailed 8700, trend 9100 report 9000. -/
theorem steps_authoritative_precedence_witness :
    bestReported [((2024, 1), (9000, 300))] [((2024, 1), 8700)] [((2024, 1), 9100)]
      (2024, 1) = some (some 9000) :=
  (steps_authoritative_precedence [((2024, 1), (9000, 300))] [((2024, 1), 8700)]
    [((2024, 1), 9100)] (2024, 1) (by decide)).trans (by decide)

/-! ## Claim C2: the year ≥ 2005 validity gate -/

/-- Every value clean_ts resolves passed the year ≥ 2005 gate. -/
theorem clean_ts_gate_member {series : List Field} {d : Day}
    (h : some d ∈ clean_ts series) : 2005 ≤ yearOf d := by
  unfold clean_ts at h
  rcases List.mem_map.mp h with ⟨o, _, ho⟩
  cases o with
  | none => simp at ho
  | some t =>
    have ho' : yearGate t = some d := ho
    unfold yearGate at ho'
    by_cases h5 : 2005 ≤ yearOf t
    · rw [if_pos h5] at ho'
      injection ho' with he
      subst he
      exact h5
    · rw [if_neg h5] at ho'
      exact absurd ho' (by simp)

/-- Every date _date_from_row_fields returns passed the year ≥ 2005 gate. -/
theorem rowFieldDate_gate (r : HRow) :
    ∀ cols d, rowFieldDate r cols = some d → 2005 ≤ yearOf d := by
  intro cols
  induction cols with
  | nil => intro d h; simp [rowFieldDate] at h
  | cons c cs ih =>
    intro d h
    simp only [rowFieldDate] at h
    split at h
    · split at h
      · split at h
        · rename_i h5
          injection h with he
          subst he
          exact h5
        · exact ih d h
      · exact ih d h
    · exact ih d h

/-- C2 counterexample: the histogram-object date chain returns the epoch-zero
date 1970-01-01 for the field value "0" instead of treating it as
unresolvable — the year gate is not applied on that path. -/
theorem hist_date_gate_counterexample :
    extractDateFromJson [(("date"), JVal.jstr ("0"))] = some 0
    ∧ yearOf 0 = 1970 ∧ ¬ 2005 ≤ yearOf 0 := by
  decide

/-- C2 amended: the year ≥ 2005 gate holds for every value resolved by
clean_ts and for the index-row fallback dates, and a well-formed epoch-ms
value for 2023-06-01 normalizes to exactly that calendar date; dates
extracted from histogram-object fields are not gated. -/
theorem timestamp_year_gate_amended :
    (∀ (series : List Field) (d : Day), some d ∈ clean_ts series → 2005 ≤ yearOf d)
    ∧ (∀ (r : HRow) (d : Day), dateFromRowFields r = some d → 2005 ≤ yearOf d)
    ∧ clean_ts [Field.str ("1685577600000")] = [some (daysFromCivil 2023 6 1)]
    ∧ civilFromDays (daysFromCivil 2023 6 1) = ⟨2023, 6, 1⟩ := by
  refine ⟨fun series d h => clean_ts_gate_member h,
    fun r d h => rowFieldDate_gate r _ d h, by decide, by decide⟩

/-- Witness for C2 (amended) at the epoch-ms value for 2023-06-01. -/
theorem timestamp_year_gate_amended_witness : 2005 ≤ yearOf (daysFromCivil 2023 6 1) :=
  timestamp_year_gate_amended.1 [Field.str ("1685577600000")] (daysFromCivil 2023 6 1)
    (by decide)

/-! ## Claim C3: per-value vs series-level normalization order -/

/-- C3 counterexample: in a two-value series whose first value is numeric
epoch-ms, the second value parses as free text per the claim, but clean_ts
leaves it unresolved — the free-text pass is skipped for the whole series. -/
theorem clean_ts_per_value_counterexample :
    clean_ts [Field.str ("1685577600000"), Field.str ("2023-06-01")]
        = [some (daysFromCivil 2023 6 1), none]
    ∧ normalizePerValueSpec (Field.str ("2023-06-01")) = some (daysFromCivil 2023 6 1) := by
  decide

/-- C3 amended: the attempts are ordered numeric-first at the level of the
whole series; for a value given alone, the first attempt that succeeds
determines its result exactly as the per-value reading says. -/
theorem clean_ts_singleton_first_success (v : Field) :
    clean_ts [v] = [normalizePerValueSpec v] := by
  unfold clean_ts clean_ts_pre normalizePerValueSpec
  cases hn : toNum v with
  | none =>
    cases ht : toTextDate v with
    | none => simp [hn, ht]
    | some t => simp [hn, ht]
  | some q =>
    cases hq : msToDayOpt q with
    | none =>
      cases ht : toTextDate v with
      | none => simp [hn, hq, ht]
      | some t => simp [hn, hq, ht]
    | some t => simp [hn, hq]

/-! ## Claim C4: smart_load header selection under hints -/

/-- C4: with a non-empty hint set, the header-row-1 parse is selected exactly
when its columns contain a hint and (the header-row-0 parse has no hint or
header-row-1 has at least as many columns). -/
theorem smart_load_hint_selection (expect cols0 cols1 : List String) (h : expect ≠ []) :
    smartLoadPick expect cols0 cols1 = true ↔
      (hasHint expect cols1 = true ∧
        (hasHint expect cols0 = false ∨ cols0.length ≤ cols1.length)) := by
  unfold smartLoadPick
  rw [if_neg (by simpa using h)]
  simp [Bool.and_eq_true, Bool.or_eq_true, Bool.not_eq_true']

/-- Witness for C4 at a concrete hinted file. -/
theorem smart_load_hint_selection_witness :
    smartLoadPick [("count")] [("idx")] [("day_time"), ("step_count")] = true :=
  (smart_load_hint_selection [("count")] [("idx")] [("day_time"), ("step_count")]
    (by decide)).mpr (by decide)

/-! ## Claim C5 (code bug): non-numeric metric aborts the run -/

/-- C5: a single histogram carrying a non-numeric sdnn makes the whole
extraction loop raise (float("n/a")) instead of skipping the row: with the
defective row present the run aborts; without it the same inputs extract the
other row's record. -/
theorem hrv_nonnumeric_metric_aborts :
    processRows hrvFixIdx hrvFixFs [hrvRowBad, hrvRowGood] = Except.error ()
    ∧ processRows hrvFixIdx hrvFixFs [hrvRowGood] = Except.ok [hrvGoodEntry] := by
  decide

/-! ## Claim C7: independence from the day-summary source -/

/-- C7: the detailed and trend columns of the reconciled series do not depend
on whether the day-summary file exists, and with it missing the merged column
is empty while the other two still equal their own sources' aggregations. -/
theorem steps_day_summary_independence (ped trn : DF) (dayLines : List String) :
    (summarize_steps ped none trn).detailed = (summarize_steps ped (some dayLines) trn).detailed
    ∧ (summarize_steps ped none trn).trend = (summarize_steps ped (some dayLines) trn).trend
    ∧ (summarize_steps ped none trn).merged = []
    ∧ (summarize_steps ped none trn).detailed = aggregate_pedometer_detailed ped
    ∧ (summarize_steps ped none trn).trend = aggregate_trend trn :=
  ⟨rfl, rfl, rfl, rfl, rfl⟩

/-! ## Claim C8: histogram reference resolution -/

/-- C8: exact index lookup wins when it has a path; when there is no exact
entry and no entry matches by substring containment in either direction, the
reference is unresolved; the spec's drift example resolves by containment;
and an unresolved reference makes the row a skip, not an error. -/
theorem hrv_reference_resolution :
    (∀ (index : List (String × List String)) (ref p : String) (ps : List String),
        assocGet index ref = some (p :: ps) → resolveRef index ref = some p)
    ∧ (∀ (index : List (String × List String)) (ref : String),
        assocGet index ref = none →
        (∀ e ∈ index, listContainsSub e.1.toList ref.toList = false
            ∧ listContainsSub ref.toList e.1.toList = false) →
        resolveRef index ref = none)
    ∧ resolveRef (buildIndex [("device1_abc123.binning_data.json")])
        ("abc123.binning_data.json") = some ("device1_abc123.binning_data.json")
    ∧ (∀ index fs (r : HRow) (ref : String), extractBinRef r = some ref →
        resolveRef index ref = none → processRow index fs r = Except.ok none) := by
  refine ⟨?_, ?_, by decide, ?_⟩
  · intro index ref p ps h
    unfold resolveRef
    rw [h]
  · intro index ref hnone hmatch
    unfold resolveRef
    rw [hnone]
    unfold substrFallback
    rw [List.findSome?_eq_none_iff]
    intro e he
    rcases hmatch e he with ⟨h1, h2⟩
    have hcond : ¬ ((listContainsSub e.1.toList ref.toList
        || listContainsSub ref.toList e.1.toList) = true) := by
      rw [h1, h2]
      simp
    exact if_neg hcond
  · intro index fs r ref href hres
    unfold processRow
    simp only [href, hres]

/-- Witness for C8: exact lookup returns the first indexed path. -/
theorem hrv_reference_resolution_witness :
    resolveRef [(("a.binning_data.json"), [("p1"), ("p2")])] ("a.binning_data.json")
      = some ("p1") :=
  hrv_reference_resolution.1 [(("a.binning_data.json"), [("p1"), ("p2")])]
    ("a.binning_data.json") ("p1") [("p2")] (by decide)

end SamsungHealth
